import Mathlib

/-!
Shallow embedding of `main.py` from the rename-invoice-pdfs repository.

The pure core (filename canonicalization `to_kebab_case`, format detection
`is_already_formatted`, target-name construction) is embedded as executable
functions on `String` / `List Char`.  The effectful batch processor
`process_pdf_directory` is embedded as a function from an explicit
environment (env vars, liveness-probe result, per-file oracle results for
the two AI backends, rename success) to a trace of events plus per-file
outcomes.

Modelling notes on Python semantics:
* `re`'s character classes `[^a-zA-Z0-9]`, `[a-z0-9]` and the regex
  machinery are ASCII-literal; `\d` and `str.lower()` are Unicode-aware in
  Python, which can differ from the ASCII model below only on non-ASCII
  digits / non-ASCII cased letters, none of which appear in the properties
  checked here.
* Python's `$` anchor also matches just before a single trailing newline;
  the embedding keeps that disjunct (`matchDatePattern`).
* `os.path.splitext` splits at the last dot of the name unless every
  character before that dot is itself a dot (leading dots never start an
  extension); filenames here contain no path separators, so the
  separator-handling part of `splitext` is vacuous.
-/

namespace RenamePdf

/-- The character class `[a-zA-Z0-9]`, i.e. the complement of the class
`[^a-zA-Z0-9]` used by `to_kebab_case`'s first `re.sub`. -/
def isAsciiAlnum (c : Char) : Bool :=
  ('A' ≤ c && c ≤ 'Z') || ('a' ≤ c && c ≤ 'z') || ('0' ≤ c && c ≤ '9')

/-- The character class `[a-z0-9]` used by `is_already_formatted`'s regex. -/
def isLowerSlugChar (c : Char) : Bool :=
  ('a' ≤ c && c ≤ 'z') || ('0' ≤ c && c ≤ '9')

/-- A character allowed in a canonical slug: `[a-z0-9-]`. -/
def canonChar (c : Char) : Bool :=
  isLowerSlugChar c || c == '-'

/-- A character that may appear after the `[^a-zA-Z0-9]` → `-` substitution
(but before lowercasing): ASCII alphanumeric or hyphen. -/
def alnumOrHyphen (c : Char) : Bool :=
  isAsciiAlnum c || c == '-'

/-- Helper for `splitextBase`: on the reversed character list, drop
characters up to and including the first `'.'`; `none` when there is no
dot at all.  `stripAfterDot l.reverse` is thus the reversed prefix of `l`
that precedes its last dot. -/
def stripAfterDot : List Char → Option (List Char)
  | [] => none
  | c :: cs => if c == '.' then some cs else stripAfterDot cs

/-- The base-name part of `os.path.splitext` for a bare filename (no path
separators): split at the last dot, unless all characters before the last
dot are themselves dots (then no extension is recognized). -/
def splitextBase (l : List Char) : List Char :=
  (stripAfterDot l.reverse).elim l fun revBase =>
    if revBase.reverse.any (fun c => !(c == '.')) then revBase.reverse else l

/-- `re.sub(r'[^a-zA-Z0-9]', '-', ·)`: replace every character that is not
an ASCII letter or digit with a hyphen. -/
def replaceSpecial (l : List Char) : List Char :=
  l.map (fun c => if isAsciiAlnum c then c else '-')

/-- `re.sub(r'-+', '-', ·)`: collapse every maximal run of hyphens into a
single hyphen. -/
def collapseHyphens : List Char → List Char
  | [] => []
  | [c] => [c]
  | c :: d :: rest =>
    if c == '-' && d == '-' then collapseHyphens (d :: rest)
    else c :: collapseHyphens (d :: rest)

/-- Leading half of `str.strip('-')`: remove the maximal leading run of
hyphens. -/
def dropLeadingHyphens : List Char → List Char
  | [] => []
  | c :: cs => if c == '-' then dropLeadingHyphens cs else c :: cs

/-- Trailing half of `str.strip('-')`: remove the maximal trailing run of
hyphens. -/
def dropTrailingHyphens : List Char → List Char
  | [] => []
  | c :: cs =>
    if c == '-' && (dropTrailingHyphens cs).isEmpty then []
    else c :: dropTrailingHyphens cs

/-- `str.strip('-')`. -/
def stripHyphens (l : List Char) : List Char :=
  dropTrailingHyphens (dropLeadingHyphens l)

/-- `to_kebab_case` on character lists: strip the extension, replace
non-alphanumerics with hyphens, collapse hyphen runs, strip leading and
trailing hyphens, lowercase. -/
def kebabList (l : List Char) : List Char :=
  (stripHyphens (collapseHyphens (replaceSpecial (splitextBase l)))).map Char.toLower

/-- `to_kebab_case(filename)` from `main.py`. -/
def to_kebab_case (filename : String) : String :=
  ⟨kebabList filename.toList⟩

/-- No two adjacent characters of the list are both hyphens, i.e. the
string contains no `--` substring. -/
def noDoubleHyphen : List Char → Bool
  | c :: d :: rest => !(c == '-' && d == '-') && noDoubleHyphen (d :: rest)
  | _ => true

/-- Matcher for the sub-regex `([a-z0-9]+-)*[a-z0-9]+` (anchored at both
ends): this regex matches a string exactly when the string is nonempty,
uses only `[a-z0-9-]`, neither starts nor ends with a hyphen, and has no
`--` run. -/
def matchSlug (l : List Char) : Bool :=
  !l.isEmpty && l.all canonChar &&
  !(l.head? == some '-') && !(l.getLast? == some '-') && noDoubleHyphen l

/-- Matcher for `([a-z0-9]+-)*[a-z0-9]+\.pdf` (anchored): the slug part
cannot contain a dot, so the literal `.pdf` must be exactly the last four
characters. -/
def matchSlugPdf (l : List Char) : Bool :=
  decide (4 ≤ l.length) &&
  l.drop (l.length - 4) == ['.', 'p', 'd', 'f'] &&
  matchSlug (l.take (l.length - 4))

/-- Matcher for `\d{6}-([a-z0-9]+-)*[a-z0-9]+\.pdf` anchored at start and
end of string (`\d` restricted to ASCII digits, see module comment). -/
def matchDateCore : List Char → Bool
  | a :: b :: c :: d :: e :: f :: g :: rest =>
    a.isDigit && b.isDigit && c.isDigit && d.isDigit && e.isDigit && f.isDigit &&
    g == '-' && matchSlugPdf rest
  | _ => false

/-- Python `re.match` with a `$`-terminated pattern: the pattern must match
the whole string, or the whole string minus a single trailing newline. -/
def matchDatePattern (l : List Char) : Bool :=
  matchDateCore l || (l.getLast? == some '\n' && matchDateCore l.dropLast)

/-- `is_already_formatted(filename)` from `main.py`: lowercase the whole
filename, then match it against `^(\d{6})-([a-z0-9]+-)*[a-z0-9]+\.pdf$`. -/
def is_already_formatted (filename : String) : Bool :=
  matchDatePattern (filename.toList.map Char.toLower)

/-- The renamed filename built by `rename_pdf_with_date`:
`f"{invoice_date}-{to_kebab_case(filename)}.pdf"`.  The date string is
embedded verbatim; no shape check is performed on it. -/
def new_filename (invoice_date : String) (filename : String) : String :=
  invoice_date ++ "-" ++ to_kebab_case filename ++ ".pdf"

/-- Python whitespace stripped by `str.strip()` (ASCII part; `.strip()` on
the Ollama response only ever meets ASCII model output here). -/
def isPyWhitespace (c : Char) : Bool :=
  c == ' ' || c == '\t' || c == '\n' || c == '\r' || c == '\x0b' || c == '\x0c'

/-- Python `str.strip()`: remove leading and trailing whitespace. -/
def pyStrip (s : String) : String :=
  ⟨((s.toList.dropWhile isPyWhitespace).reverse.dropWhile isPyWhitespace).reverse⟩

/-- Whether a filename is hidden, i.e. starts with a dot (`Path.glob`'s
leading `*` wildcard never matches a leading dot). -/
def startsWithDot (n : String) : Bool :=
  match n.toList with
  | '.' :: _ => true
  | _ => false

/-- Whether a string ends with the given extension (character-list suffix
comparison). -/
def strEndsWith (n ext : String) : Bool :=
  n.toList.drop (n.toList.length - ext.toList.length) == ext.toList

/-- One call of `Path.glob` with pattern `*.<ext>`: names ending in the
extension, excluding hidden files. -/
def globMatches (ext : String) (entries : List String) : List String :=
  entries.filter (fun n => !startsWithDot n && strEndsWith n ext)

/-- `get_pdf_files(directory)`: `glob("*.pdf") + glob("*.PDF")` over the
directory's entries. -/
def get_pdf_files (entries : List String) : List String :=
  globMatches ".pdf" entries ++ globMatches ".PDF" entries

/-- Everything `process_pdf_directory` observes from the outside world:
environment variables, the liveness-probe outcome, the per-file results of
the I/O steps of each backend, and whether a given filesystem rename
succeeds.  `Except Unit` models a Python call that either returns a value
or raises. -/
structure Env where
  /-- `os.getenv("OLLAMA_API_URL")`: `none` = unset; `some ""` is falsy. -/
  ollama_api_url : Option String
  /-- `os.getenv("OLLAMA_MODEL")`. -/
  ollama_model : Option String
  /-- Outcome of `requests.get(url + "/version", timeout=2)`: either an
  HTTP status code or an exception. -/
  probe : Except Unit Nat
  /-- `extract_pdf_text_for_ollama_ai(path)`: the PDF's concatenated page
  text, or an exception. -/
  pdfText : String → Except Unit String
  /-- The `response` field of the Ollama `/generate` call, keyed by the
  extracted text that was embedded in the prompt, or an exception. -/
  ollamaGenerate : String → Except Unit String
  /-- `load_pdf_data_for_remote_ai(path)`: base64 PDF data, or an
  exception. -/
  pdfData : String → Except Unit String
  /-- `message.content[0].text` of the cloud call, keyed by the submitted
  document data, or an exception. -/
  remoteResponse : String → Except Unit String
  /-- Whether `pdf_path.rename(new_path)` succeeds for a given old and new
  name. -/
  renameOk : String → String → Bool

/-- Terminal state of one file in the batch (spec §4.4). -/
inductive Outcome where
  | skipped
  | renamed (newName : String)
  | errored
deriving DecidableEq, Repr

/-- Observable side effects of a batch run, in order. -/
inductive Event where
  /-- `get_remote_ai_client()` constructed the Anthropic client. -/
  | clientConstructed
  /-- `print("No PDF files found …")`. -/
  | logNoFiles
  /-- `print("Found n PDF files to process")`. -/
  | logFoundCount (n : Nat)
  /-- The `GET /version` liveness probe inside `is_ollama_running`. -/
  | probe
  /-- `print("Skipping …")`. -/
  | logSkip (name : String)
  /-- The `POST /generate` call of the local backend, for a file. -/
  | backendLocal (name : String)
  /-- The cloud `messages.create` call, for a file. -/
  | backendRemote (name : String)
  /-- The filesystem mutation `pdf_path.rename(new_path)`. -/
  | fsRename (old new : String)
  /-- `print("Renamed: …")`. -/
  | logRenamed (old new : String)
  /-- `print(f"Error processing {pdf_path}: …")` from the `except` arm. -/
  | logError (name : String)
deriving DecidableEq, Repr

/-- Python truthiness of an `os.getenv` result: set and nonempty. -/
def truthy : Option String → Bool
  | none => false
  | some s => !s.isEmpty

/-- `is_ollama_running()`: `True` iff the probe returned status 200; any
exception is caught and yields `False`. -/
def is_ollama_running (env : Env) : Bool :=
  match env.probe with
  | .error _ => false
  | .ok status => status == 200

/-- The `ollama_is_available` expression computed once before the per-file
loop: both env vars truthy and the liveness probe succeeded. -/
def ollama_is_available (env : Env) : Bool :=
  truthy env.ollama_api_url && truthy env.ollama_model && is_ollama_running env

/-- Events emitted while evaluating `ollama_is_available`: Python's `and`
short-circuits, so the probe request happens only when both env vars are
truthy. -/
def availabilityEvents (env : Env) : List Event :=
  if truthy env.ollama_api_url && truthy env.ollama_model then [.probe] else []

/-- The local-backend branch of the loop body:
`extract_pdf_text_for_ollama_ai` then `ask_ollama_for_date` (which strips
the raw response).  Returns the date-string result (or the caught-later
exception) plus the backend-call events that happened. -/
def localExtract (env : Env) (name : String) : Except Unit String × List Event :=
  match env.pdfText name with
  | .error e => (.error e, [])
  | .ok text =>
    match env.ollamaGenerate text with
    | .error e => (.error e, [.backendLocal name])
    | .ok raw => (.ok (pyStrip raw), [.backendLocal name])

/-- The cloud-backend branch of the loop body:
`load_pdf_data_for_remote_ai` then `determine_invoice_date_remote_ai`
(whose first content block's text is returned verbatim). -/
def remoteExtract (env : Env) (name : String) : Except Unit String × List Event :=
  match env.pdfData name with
  | .error e => (.error e, [])
  | .ok data =>
    match env.remoteResponse data with
    | .error e => (.error e, [.backendRemote name])
    | .ok s => (.ok s, [.backendRemote name])

/-- The date-extraction step of the loop body: local variant when
`ollama_is_available` was true, cloud variant otherwise. -/
def extract_step (env : Env) (avail : Bool) (name : String) : Except Unit String × List Event :=
  if avail then localExtract env name else remoteExtract env name

/-- `rename_pdf_with_date(pdf_path, invoice_date)`: build
`f"{invoice_date}-{to_kebab_case(filename)}.pdf"` in the same directory and
rename; on success also logs.  A failing rename raises. -/
def rename_pdf_with_date (env : Env) (name invoice_date : String) :
    Except Unit (String × List Event) :=
  let newName := new_filename invoice_date name
  if env.renameOk name newName then
    .ok (newName, [.fsRename name newName, .logRenamed name newName])
  else
    .error ()

/-- One iteration of the `for pdf_path in pdf_files` loop, `try`/`except`
included: skip already-formatted files; otherwise extract a date with the
selected backend and rename; any exception is caught and logged and the
file ends `errored`. -/
def process_one (env : Env) (avail : Bool) (name : String) : Outcome × List Event :=
  if is_already_formatted name then
    (.skipped, [.logSkip name])
  else
    match extract_step env avail name with
    | (.error _, evs) => (.errored, evs ++ [.logError name])
    | (.ok invoice_date, evs) =>
      match rename_pdf_with_date env name invoice_date with
      | .error _ => (.errored, evs ++ [.logError name])
      | .ok (newName, revs) => (.renamed newName, evs ++ revs)

/-- `process_pdf_directory(directory)`: construct the cloud client, list
PDF files, return early when there are none, otherwise compute
`ollama_is_available` once and run the per-file loop.  Returns the event
trace and the per-file outcomes in file order. -/
def process_pdf_directory (env : Env) (entries : List String) : List Event × List Outcome :=
  let pdf_files := get_pdf_files entries
  if pdf_files.isEmpty then
    ([.clientConstructed, .logNoFiles], [])
  else
    let avail := ollama_is_available env
    ([.clientConstructed, .logFoundCount pdf_files.length] ++ availabilityEvents env ++
       pdf_files.flatMap (fun f => (process_one env avail f).2),
     pdf_files.map (fun f => (process_one env avail f).1))

/-!  Concrete environments used to instantiate the general theorems. -/

/-- A run with no local-backend configuration: the cloud variant answers
`"250315"` for every file and every rename succeeds. -/
def envCloud : Env where
  ollama_api_url := none
  ollama_model := none
  probe := .error ()
  pdfText := fun _ => .error ()
  ollamaGenerate := fun _ => .error ()
  pdfData := fun n => .ok n
  remoteResponse := fun _ => .ok "250315"
  renameOk := fun _ _ => true

/-- A run where both backends are configured and reachable but each model
answers with prose rather than a `YYMMDD` date. -/
def envBoth : Env where
  ollama_api_url := some "http://localhost:11434/api"
  ollama_model := some "llama3"
  probe := .ok 200
  pdfText := fun _ => .ok "some invoice text"
  ollamaGenerate := fun _ => .ok "  The invoice date is 15 March 2025.  "
  pdfData := fun _ => .ok "JVBERi0xLjQ"
  remoteResponse := fun _ => .ok "I could not find a date"
  renameOk := fun _ _ => true

/-- A cloud-only run in which reading the bytes of `broken.pdf` raises. -/
def envFail : Env where
  ollama_api_url := none
  ollama_model := none
  probe := .error ()
  pdfText := fun _ => .error ()
  ollamaGenerate := fun _ => .error ()
  pdfData := fun n => if n == "broken.pdf" then .error () else .ok n
  remoteResponse := fun _ => .ok "250315"
  renameOk := fun _ _ => true

/-!  Conclusion predicates of the batch-level claims (kept as definitions
so that the witness instantiations can restate them verbatim). -/

/-- Backend-selection policy (claim C5): outcomes are those of a single
run-wide variant choice; the probe fires exactly once when both env vars
are truthy and never otherwise; the local variant is selected iff both env
vars are truthy and the probe returned 200 (an erroring probe silently
deselecting it); and no file is ever sent to the non-selected variant. -/
def BackendSelectionHolds (env : Env) (entries : List String) : Prop :=
  (process_pdf_directory env entries).2 =
    (get_pdf_files entries).map (fun f => (process_one env (ollama_is_available env) f).1) ∧
  (process_pdf_directory env entries).1.count Event.probe =
    (if truthy env.ollama_api_url && truthy env.ollama_model then 1 else 0) ∧
  (ollama_is_available env = true ↔
    truthy env.ollama_api_url = true ∧ truthy env.ollama_model = true ∧
    env.probe = .ok 200) ∧
  (∀ e, env.probe = .error e → ollama_is_available env = false) ∧
  (∀ g, ollama_is_available env = true →
    Event.backendRemote g ∉ (process_pdf_directory env entries).1) ∧
  (∀ g, ollama_is_available env = false →
    Event.backendLocal g ∉ (process_pdf_directory env entries).1)

/-- Per-file failure isolation (claim C6): the failing file ends `errored`
with its identity in the error log, and the batch still yields one outcome
for every file, each computed from that file alone. -/
def IsolationHolds (env : Env) (entries : List String) (f : String) : Prop :=
  (process_one env (ollama_is_available env) f).1 = .errored ∧
  Event.logError f ∈ (process_one env (ollama_is_available env) f).2 ∧
  (process_pdf_directory env entries).2 =
    (get_pdf_files entries).map (fun g => (process_one env (ollama_is_available env) g).1) ∧
  (process_pdf_directory env entries).2.length = (get_pdf_files entries).length

/-- Empty-directory behavior as the code actually implements it (claim C7,
amended): one log line, no outcomes, no probe, no backend call, no rename —
but the cloud client *is* constructed. -/
def EmptyDirHolds (env : Env) (entries : List String) : Prop :=
  process_pdf_directory env entries = ([.clientConstructed, .logNoFiles], []) ∧
  Event.probe ∉ (process_pdf_directory env entries).1 ∧
  (∀ g, Event.backendLocal g ∉ (process_pdf_directory env entries).1 ∧
        Event.backendRemote g ∉ (process_pdf_directory env entries).1) ∧
  (∀ a b, Event.fsRename a b ∉ (process_pdf_directory env entries).1)

/-!  Character-level facts used by the canonicalizer proofs. -/

theorem char_le_iff {a b : Char} : a ≤ b ↔ a.toNat ≤ b.toNat := Iff.rfl

theorem toNat_ofNat_valid {n : Nat} (h : n.isValidChar) : (Char.ofNat n).toNat = n := by
  rw [Char.ofNat, dif_pos h]
  rfl

theorem toLower_eq_self {c : Char} (h : ¬(65 ≤ c.toNat ∧ c.toNat ≤ 90)) :
    Char.toLower c = c := by
  unfold Char.toLower
  exact if_neg h

theorem toNat_toLower_of_upper {c : Char} (h : 65 ≤ c.toNat ∧ c.toNat ≤ 90) :
    (Char.toLower c).toNat = c.toNat + 32 := by
  unfold Char.toLower
  rw [if_pos h]
  exact toNat_ofNat_valid (Or.inl (by omega))

theorem toNat_A : ('A').toNat = 65 := rfl
theorem toNat_Z : ('Z').toNat = 90 := rfl
theorem toNat_la : ('a').toNat = 97 := rfl
theorem toNat_lz : ('z').toNat = 122 := rfl
theorem toNat_d0 : ('0').toNat = 48 := rfl
theorem toNat_d9 : ('9').toNat = 57 := rfl

theorem isAsciiAlnum_iff {c : Char} :
    isAsciiAlnum c = true ↔
      (65 ≤ c.toNat ∧ c.toNat ≤ 90) ∨ (97 ≤ c.toNat ∧ c.toNat ≤ 122) ∨
      (48 ≤ c.toNat ∧ c.toNat ≤ 57) := by
  simp only [isAsciiAlnum, Bool.or_eq_true, Bool.and_eq_true, decide_eq_true_eq, char_le_iff,
    toNat_A, toNat_Z, toNat_la, toNat_lz, toNat_d0, toNat_d9]
  tauto

theorem isLowerSlugChar_iff {c : Char} :
    isLowerSlugChar c = true ↔
      (97 ≤ c.toNat ∧ c.toNat ≤ 122) ∨ (48 ≤ c.toNat ∧ c.toNat ≤ 57) := by
  simp only [isLowerSlugChar, Bool.or_eq_true, Bool.and_eq_true, decide_eq_true_eq, char_le_iff,
    toNat_la, toNat_lz, toNat_d0, toNat_d9]

theorem isDigit_iff {c : Char} :
    c.isDigit = true ↔ 48 ≤ c.toNat ∧ c.toNat ≤ 57 := by
  simp only [Char.isDigit, Bool.and_eq_true, decide_eq_true_eq]
  constructor
  · rintro ⟨h1, h2⟩
    exact ⟨h1, h2⟩
  · rintro ⟨h1, h2⟩
    exact ⟨h1, h2⟩

theorem toNat_hyphen : ('-').toNat = 45 := rfl

theorem eq_hyphen_iff {c : Char} : c = '-' ↔ c.toNat = 45 := by
  constructor
  · rintro rfl; rfl
  · intro h
    apply Char.ext
    apply UInt32.eq_of_toBitVec_eq
    apply BitVec.eq_of_toNat_eq
    exact h

theorem eq_dot_iff {c : Char} : c = '.' ↔ c.toNat = 46 := by
  constructor
  · rintro rfl; rfl
  · intro h
    apply Char.ext
    apply UInt32.eq_of_toBitVec_eq
    apply BitVec.eq_of_toNat_eq
    exact h

/-- Lowercasing a character of the class `[a-z0-9-]` is the identity. -/
theorem toLower_eq_self_of_canon {c : Char} (h : canonChar c = true) :
    Char.toLower c = c := by
  apply toLower_eq_self
  rcases Bool.or_eq_true _ _ |>.mp h with h' | h'
  · rcases isLowerSlugChar_iff.mp h' with ⟨h1, h2⟩ | ⟨h1, h2⟩ <;> omega
  · rw [beq_iff_eq, eq_hyphen_iff] at h'
    omega

/-- Lowercasing a digit is the identity. -/
theorem toLower_eq_self_of_digit {c : Char} (h : c.isDigit = true) :
    Char.toLower c = c := by
  apply toLower_eq_self
  rcases isDigit_iff.mp h with ⟨h1, h2⟩
  omega

/-- Lowercasing an ASCII alphanumeric lands in `[a-z0-9]`. -/
theorem isLowerSlugChar_toLower {c : Char} (h : isAsciiAlnum c = true) :
    isLowerSlugChar (Char.toLower c) = true := by
  rcases isAsciiAlnum_iff.mp h with hu | hl | hd
  · rw [isLowerSlugChar_iff, toNat_toLower_of_upper hu]
    omega
  · rw [toLower_eq_self (by omega), isLowerSlugChar_iff]
    omega
  · rw [toLower_eq_self (by omega), isLowerSlugChar_iff]
    omega

/-- `[a-z0-9]` characters are not the hyphen. -/
theorem slugChar_ne_hyphen {c : Char} (h : isLowerSlugChar c = true) : c ≠ '-' := by
  intro hc
  rcases isLowerSlugChar_iff.mp h with ⟨h1, h2⟩ | ⟨h1, h2⟩ <;>
    rw [eq_hyphen_iff.mp hc] at h1 h2 <;> omega

/-- `[a-z0-9-]` characters are not the dot. -/
theorem canonChar_ne_dot {c : Char} (h : canonChar c = true) : c ≠ '.' := by
  intro hc
  rcases Bool.or_eq_true _ _ |>.mp h with h' | h'
  · rcases isLowerSlugChar_iff.mp h' with ⟨h1, h2⟩ | ⟨h1, h2⟩ <;>
      rw [eq_dot_iff.mp hc] at h1 h2 <;> omega
  · rw [beq_iff_eq] at h'
    rw [h'] at hc
    exact absurd hc (by decide)

/-- On the post-substitution class (ASCII alphanumerics and hyphen),
lowercasing preserves being-the-hyphen in both directions. -/
theorem toLower_hyphen_iff {c : Char} (h : alnumOrHyphen c = true) :
    Char.toLower c = '-' ↔ c = '-' := by
  rcases Bool.or_eq_true _ _ |>.mp h with h' | h'
  · have := isLowerSlugChar_toLower h'
    constructor
    · intro hc
      exact absurd (hc ▸ this) (by decide)
    · rintro rfl
      exact absurd h' (by decide)
  · rw [beq_iff_eq] at h'
    subst h'
    decide

/-- Lowercasing maps the post-substitution class into `[a-z0-9-]`. -/
theorem canonChar_toLower {c : Char} (h : alnumOrHyphen c = true) :
    canonChar (Char.toLower c) = true := by
  rcases Bool.or_eq_true _ _ |>.mp h with h' | h'
  · exact Bool.or_eq_true _ _ |>.mpr (Or.inl (isLowerSlugChar_toLower h'))
  · rw [beq_iff_eq] at h'
    subst h'
    decide

/-- `[a-z0-9]` is contained in `[a-zA-Z0-9]`. -/
theorem isAsciiAlnum_of_lower {c : Char} (h : isLowerSlugChar c = true) :
    isAsciiAlnum c = true := by
  rw [isAsciiAlnum_iff]
  rcases isLowerSlugChar_iff.mp h with h' | h'
  · exact Or.inr (Or.inl h')
  · exact Or.inr (Or.inr h')

/-- `[a-z0-9-]` is contained in the post-substitution class. -/
theorem alnumOrHyphen_of_canon {c : Char} (h : canonChar c = true) :
    alnumOrHyphen c = true := by
  rcases Bool.or_eq_true _ _ |>.mp h with h' | h'
  · exact Bool.or_eq_true _ _ |>.mpr (Or.inl (isAsciiAlnum_of_lower h'))
  · exact Bool.or_eq_true _ _ |>.mpr (Or.inr h')

/-!  Small `Bool` helpers. -/

theorem bool_not_of_not {b : Bool} (h : ¬ b = true) : (!b) = true := by
  cases b
  · rfl
  · exact absurd rfl h

theorem not_of_bool_not {b : Bool} (h : (!b) = true) : ¬ b = true := by
  cases b
  · exact fun hc => Bool.false_ne_true hc
  · exact absurd h (by decide)

/-!  `noDoubleHyphen` basics. -/

theorem noDouble_nil : noDoubleHyphen [] = true := rfl

theorem noDouble_singleton (c : Char) : noDoubleHyphen [c] = true := rfl

theorem noDouble_cons_cons (c d : Char) (l : List Char) :
    noDoubleHyphen (c :: d :: l) = (!(c == '-' && d == '-') && noDoubleHyphen (d :: l)) := rfl

theorem noDouble_tail {c : Char} {l : List Char} (h : noDoubleHyphen (c :: l) = true) :
    noDoubleHyphen l = true := by
  cases l with
  | nil => rfl
  | cons d rest =>
    rw [noDouble_cons_cons, Bool.and_eq_true] at h
    exact h.2

/-!  `collapseHyphens` lemmas. -/

theorem collapseHyphens_cons (c : Char) (cs : List Char) :
    ∃ t, collapseHyphens (c :: cs) = c :: t := by
  induction cs generalizing c with
  | nil => exact ⟨[], rfl⟩
  | cons d rest ih =>
    by_cases h : c == '-' && d == '-'
    · obtain ⟨t, ht⟩ := ih d
      refine ⟨t, ?_⟩
      have hc : c = d := by
        rw [Bool.and_eq_true, beq_iff_eq, beq_iff_eq] at h
        rw [h.1, h.2]
      rw [collapseHyphens, if_pos h, ht, hc]
    · exact ⟨collapseHyphens (d :: rest), by rw [collapseHyphens, if_neg h]⟩

theorem mem_collapseHyphens {a : Char} {l : List Char} (h : a ∈ collapseHyphens l) :
    a ∈ l := by
  induction l with
  | nil => exact absurd h (by simp [collapseHyphens])
  | cons c cs ih =>
    cases cs with
    | nil => exact h
    | cons d rest =>
      by_cases hcd : c == '-' && d == '-'
      · rw [collapseHyphens, if_pos hcd] at h
        exact List.mem_cons_of_mem c (ih h)
      · rw [collapseHyphens, if_neg hcd] at h
        rcases List.mem_cons.mp h with h' | h'
        · exact h' ▸ List.mem_cons_self _ _
        · exact List.mem_cons_of_mem c (ih h')

theorem mem_collapseHyphens_of_ne {a : Char} {l : List Char}
    (h : a ∈ l) (hne : a ≠ '-') : a ∈ collapseHyphens l := by
  induction l with
  | nil => exact absurd h (List.not_mem_nil a)
  | cons c cs ih =>
    cases cs with
    | nil => exact h
    | cons d rest =>
      by_cases hcd : c == '-' && d == '-'
      · rw [collapseHyphens, if_pos hcd]
        have hc : c = '-' := by
          rw [Bool.and_eq_true, beq_iff_eq, beq_iff_eq] at hcd
          exact hcd.1
        rcases List.mem_cons.mp h with h' | h'
        · exact absurd (h' ▸ hc) hne
        · exact ih h'
      · rw [collapseHyphens, if_neg hcd]
        rcases List.mem_cons.mp h with h' | h'
        · exact h' ▸ List.mem_cons_self _ _
        · exact List.mem_cons_of_mem c (ih h')

theorem noDouble_collapseHyphens (l : List Char) :
    noDoubleHyphen (collapseHyphens l) = true := by
  induction l with
  | nil => rfl
  | cons c cs ih =>
    cases cs with
    | nil => rfl
    | cons d rest =>
      by_cases hcd : c == '-' && d == '-'
      · rw [collapseHyphens, if_pos hcd]
        exact ih
      · rw [collapseHyphens, if_neg hcd]
        obtain ⟨t, ht⟩ := collapseHyphens_cons d rest
        rw [ht, noDouble_cons_cons, Bool.and_eq_true]
        refine ⟨bool_not_of_not hcd, ?_⟩
        rw [← ht]
        exact ih

theorem collapseHyphens_eq_self {l : List Char} (h : noDoubleHyphen l = true) :
    collapseHyphens l = l := by
  induction l with
  | nil => rfl
  | cons c cs ih =>
    cases cs with
    | nil => rfl
    | cons d rest =>
      rw [noDouble_cons_cons, Bool.and_eq_true] at h
      rw [collapseHyphens, if_neg (not_of_bool_not h.1), ih h.2]

/-!  `dropLeadingHyphens` lemmas. -/

theorem head?_dropLeadingHyphens (l : List Char) :
    ¬ (dropLeadingHyphens l).head? = some '-' := by
  induction l with
  | nil => simp [dropLeadingHyphens]
  | cons c cs ih =>
    by_cases hc : c == '-'
    · rw [dropLeadingHyphens, if_pos hc]
      exact ih
    · rw [dropLeadingHyphens, if_neg hc]
      simp only [List.head?_cons, Option.some.injEq]
      intro h
      exact hc (by rw [h]; rfl)

theorem mem_dropLeadingHyphens_of_ne {a : Char} {l : List Char}
    (h : a ∈ l) (hne : a ≠ '-') : a ∈ dropLeadingHyphens l := by
  induction l with
  | nil => exact absurd h (List.not_mem_nil a)
  | cons c cs ih =>
    by_cases hc : c == '-'
    · rw [dropLeadingHyphens, if_pos hc]
      rcases List.mem_cons.mp h with h' | h'
      · exact absurd (h' ▸ (beq_iff_eq.mp hc)) hne
      · exact ih h'
    · rw [dropLeadingHyphens, if_neg hc]
      exact h

theorem mem_of_mem_dropLeadingHyphens {a : Char} {l : List Char}
    (h : a ∈ dropLeadingHyphens l) : a ∈ l := by
  induction l with
  | nil => exact absurd h (by simp [dropLeadingHyphens])
  | cons c cs ih =>
    by_cases hc : c == '-'
    · rw [dropLeadingHyphens, if_pos hc] at h
      exact List.mem_cons_of_mem c (ih h)
    · rw [dropLeadingHyphens, if_neg hc] at h
      exact h

theorem noDouble_dropLeadingHyphens {l : List Char} (h : noDoubleHyphen l = true) :
    noDoubleHyphen (dropLeadingHyphens l) = true := by
  induction l with
  | nil => rfl
  | cons c cs ih =>
    by_cases hc : c == '-'
    · rw [dropLeadingHyphens, if_pos hc]
      exact ih (noDouble_tail h)
    · rw [dropLeadingHyphens, if_neg hc]
      exact h

theorem dropLeadingHyphens_eq_self {l : List Char} (h : ¬ l.head? = some '-') :
    dropLeadingHyphens l = l := by
  cases l with
  | nil => rfl
  | cons c cs =>
    have hc : ¬ (c == '-') = true := by
      simp only [List.head?_cons] at h
      intro he
      exact h (by rw [beq_iff_eq.mp he])
    rw [dropLeadingHyphens, if_neg hc]

/-!  `dropTrailingHyphens` lemmas. -/

theorem dropTrailingHyphens_shape (c : Char) (cs : List Char) :
    dropTrailingHyphens (c :: cs) = [] ∨
    dropTrailingHyphens (c :: cs) = c :: dropTrailingHyphens cs := by
  by_cases h : c == '-' && (dropTrailingHyphens cs).isEmpty
  · exact Or.inl (by rw [dropTrailingHyphens, if_pos h])
  · exact Or.inr (by rw [dropTrailingHyphens, if_neg h])

theorem getLast?_dropTrailingHyphens (l : List Char) :
    ¬ (dropTrailingHyphens l).getLast? = some '-' := by
  induction l with
  | nil => simp [dropTrailingHyphens]
  | cons c cs ih =>
    by_cases h : c == '-' && (dropTrailingHyphens cs).isEmpty
    · rw [dropTrailingHyphens, if_pos h]
      simp
    · rw [dropTrailingHyphens, if_neg h]
      cases hcs : dropTrailingHyphens cs with
      | nil =>
        have hc : ¬ c = '-' := by
          intro he
          exact h (by rw [hcs, he]; rfl)
        simp only [List.getLast?_singleton, Option.some.injEq]
        exact hc
      | cons d rest =>
        rw [List.getLast?_cons_cons]
        rw [hcs] at ih
        exact ih

theorem mem_of_mem_dropTrailingHyphens {a : Char} {l : List Char}
    (h : a ∈ dropTrailingHyphens l) : a ∈ l := by
  induction l with
  | nil => exact absurd h (by simp [dropTrailingHyphens])
  | cons c cs ih =>
    rcases dropTrailingHyphens_shape c cs with hs | hs
    · rw [hs] at h
      exact absurd h (List.not_mem_nil a)
    · rw [hs] at h
      rcases List.mem_cons.mp h with h' | h'
      · exact h' ▸ List.mem_cons_self _ _
      · exact List.mem_cons_of_mem c (ih h')

theorem mem_dropTrailingHyphens_of_ne {a : Char} {l : List Char}
    (h : a ∈ l) (hne : a ≠ '-') : a ∈ dropTrailingHyphens l := by
  induction l with
  | nil => exact absurd h (List.not_mem_nil a)
  | cons c cs ih =>
    by_cases hcd : c == '-' && (dropTrailingHyphens cs).isEmpty
    · rw [Bool.and_eq_true, beq_iff_eq] at hcd
      rcases List.mem_cons.mp h with h' | h'
      · exact absurd (h' ▸ hcd.1) hne
      · have := ih h'
        rw [List.isEmpty_iff.mp hcd.2] at this
        exact absurd this (List.not_mem_nil a)
    · rw [dropTrailingHyphens, if_neg hcd]
      rcases List.mem_cons.mp h with h' | h'
      · exact h' ▸ List.mem_cons_self _ _
      · exact List.mem_cons_of_mem c (ih h')

theorem head?_dropTrailingHyphens {l : List Char} (h : ¬ l.head? = some '-') :
    ¬ (dropTrailingHyphens l).head? = some '-' := by
  cases l with
  | nil => simp [dropTrailingHyphens]
  | cons c cs =>
    rcases dropTrailingHyphens_shape c cs with hs | hs
    · rw [hs]
      simp
    · rw [hs]
      simpa using h

theorem noDouble_dropTrailingHyphens {l : List Char} (h : noDoubleHyphen l = true) :
    noDoubleHyphen (dropTrailingHyphens l) = true := by
  induction l with
  | nil => rfl
  | cons c cs ih =>
    rcases dropTrailingHyphens_shape c cs with hs | hs
    · rw [hs]; rfl
    · rw [hs]
      cases cs with
      | nil => rfl
      | cons d ds =>
        rcases dropTrailingHyphens_shape d ds with hs' | hs'
        · rw [hs']; rfl
        · rw [hs', noDouble_cons_cons, Bool.and_eq_true]
          rw [noDouble_cons_cons, Bool.and_eq_true] at h
          refine ⟨h.1, ?_⟩
          rw [← hs']
          exact ih h.2

theorem dropTrailingHyphens_eq_self {l : List Char} (h : ¬ l.getLast? = some '-') :
    dropTrailingHyphens l = l := by
  induction l with
  | nil => rfl
  | cons c cs ih =>
    cases cs with
    | nil =>
      have hc : ¬ c = '-' := by simpa using h
      rw [dropTrailingHyphens]
      rw [if_neg (by simpa using fun he _ => hc he)]
      rfl
    | cons d ds =>
      rw [List.getLast?_cons_cons] at h
      have hds := ih h
      rw [dropTrailingHyphens, hds]
      rw [if_neg (by simp)]

/-!  Lowercasing step. -/

theorem all_replaceSpecial (l : List Char) :
    ∀ c ∈ replaceSpecial l, alnumOrHyphen c = true := by
  intro c hc
  rcases List.mem_map.mp hc with ⟨a, _, ha⟩
  by_cases h : isAsciiAlnum a
  · rw [← ha, if_pos h]
    exact Bool.or_eq_true _ _ |>.mpr (Or.inl h)
  · rw [← ha, if_neg h]
    decide

theorem noDouble_map_toLower {l : List Char}
    (hcl : ∀ c ∈ l, alnumOrHyphen c = true) (h : noDoubleHyphen l = true) :
    noDoubleHyphen (l.map Char.toLower) = true := by
  induction l with
  | nil => rfl
  | cons c cs ih =>
    cases cs with
    | nil => rfl
    | cons d rest =>
      rw [List.map_cons, List.map_cons, noDouble_cons_cons, Bool.and_eq_true]
      rw [noDouble_cons_cons, Bool.and_eq_true] at h
      constructor
      · apply bool_not_of_not
        intro hcd
        rw [Bool.and_eq_true, beq_iff_eq, beq_iff_eq] at hcd
        have hc' := (toLower_hyphen_iff (hcl c (List.mem_cons_self _ _))).mp hcd.1
        have hd' := (toLower_hyphen_iff
          (hcl d (List.mem_cons_of_mem c (List.mem_cons_self _ _)))).mp hcd.2
        exact not_of_bool_not h.1 (by rw [hc', hd']; rfl)
      · rw [← List.map_cons]
        exact ih (fun a ha => hcl a (List.mem_cons_of_mem c ha)) h.2

/-!  The canonical-slug invariant of `to_kebab_case` (claim C3), proved in
stages over the pipeline `splitextBase → replaceSpecial → collapseHyphens →
strip → map toLower`. -/

theorem kebabList_props (l : List Char) :
    (∀ c ∈ kebabList l, canonChar c = true) ∧
    ¬ (kebabList l).head? = some '-' ∧
    ¬ (kebabList l).getLast? = some '-' ∧
    noDoubleHyphen (kebabList l) = true := by
  have h1 : ∀ c ∈ replaceSpecial (splitextBase l), alnumOrHyphen c = true :=
    all_replaceSpecial _
  have h2 : ∀ c ∈ collapseHyphens (replaceSpecial (splitextBase l)), alnumOrHyphen c = true :=
    fun c hc => h1 c (mem_collapseHyphens hc)
  have h3 : ∀ c ∈ stripHyphens (collapseHyphens (replaceSpecial (splitextBase l))),
      alnumOrHyphen c = true :=
    fun c hc => h2 c (mem_of_mem_dropLeadingHyphens (mem_of_mem_dropTrailingHyphens hc))
  have hnd : noDoubleHyphen
      (stripHyphens (collapseHyphens (replaceSpecial (splitextBase l)))) = true :=
    noDouble_dropTrailingHyphens
      (noDouble_dropLeadingHyphens (noDouble_collapseHyphens _))
  have hhd : ¬ (stripHyphens (collapseHyphens (replaceSpecial (splitextBase l)))).head? =
      some '-' :=
    head?_dropTrailingHyphens (head?_dropLeadingHyphens _)
  have hlt : ¬ (stripHyphens (collapseHyphens (replaceSpecial (splitextBase l)))).getLast? =
      some '-' :=
    getLast?_dropTrailingHyphens _
  refine ⟨?_, ?_, ?_, ?_⟩
  · intro c hc
    rcases List.mem_map.mp hc with ⟨a, ha, rfl⟩
    exact canonChar_toLower (h3 a ha)
  · rw [kebabList, List.head?_map]
    intro hcontra
    rcases Option.map_eq_some'.mp hcontra with ⟨a, ha, hla⟩
    have := (toLower_hyphen_iff (h3 a (List.mem_of_mem_head? (by rw [ha]; rfl)))).mp hla
    exact hhd (this ▸ ha)
  · rw [kebabList, List.getLast?_map]
    intro hcontra
    rcases Option.map_eq_some'.mp hcontra with ⟨a, ha, hla⟩
    have := (toLower_hyphen_iff (h3 a (List.mem_of_getLast?_eq_some ha))).mp hla
    exact hlt (this ▸ ha)
  · exact noDouble_map_toLower h3 hnd

/-!  Identity lemmas: each pipeline stage is the identity on strings that
already satisfy its output invariant.  Used for the idempotence claims. -/

theorem stripAfterDot_eq_none {l : List Char} (h : '.' ∉ l) :
    stripAfterDot l = none := by
  induction l with
  | nil => rfl
  | cons c cs ih =>
    have hc : ¬ (c == '.') = true := by
      intro he
      exact h (by rw [beq_iff_eq] at he; rw [← he]; exact List.mem_cons_self _ _)
    rw [stripAfterDot, if_neg hc]
    exact ih (fun hm => h (List.mem_cons_of_mem c hm))

theorem splitextBase_of_no_dot {l : List Char} (h : '.' ∉ l) :
    splitextBase l = l := by
  rw [splitextBase, stripAfterDot_eq_none (fun hm => h (List.mem_reverse.mp hm))]
  rfl

theorem splitextBase_append_pdf {l : List Char} (hne : l ≠ []) (h : '.' ∉ l) :
    splitextBase (l ++ ['.', 'p', 'd', 'f']) = l := by
  have hrev : (l ++ ['.', 'p', 'd', 'f']).reverse = 'f' :: 'd' :: 'p' :: '.' :: l.reverse := by
    simp
  have hsad : stripAfterDot ((l ++ ['.', 'p', 'd', 'f']).reverse) = some l.reverse := by
    rw [hrev]
    rw [stripAfterDot, if_neg (by decide)]
    rw [stripAfterDot, if_neg (by decide)]
    rw [stripAfterDot, if_neg (by decide)]
    rw [stripAfterDot, if_pos (by decide)]
  have hany : (l.reverse.reverse).any (fun c => !(c == '.')) = true := by
    rw [List.reverse_reverse]
    cases l with
    | nil => exact absurd rfl hne
    | cons c cs =>
      apply List.any_eq_true.mpr
      refine ⟨c, List.mem_cons_self _ _, ?_⟩
      apply bool_not_of_not
      intro hc
      rw [beq_iff_eq] at hc
      subst hc
      exact h (List.mem_cons_self _ _)
  rw [splitextBase, hsad, Option.elim_some, if_pos hany, List.reverse_reverse]

theorem replaceSpecial_eq_self {l : List Char} (h : ∀ c ∈ l, alnumOrHyphen c = true) :
    replaceSpecial l = l := by
  induction l with
  | nil => rfl
  | cons c cs ih =>
    rw [replaceSpecial, List.map_cons]
    have hc : (if isAsciiAlnum c then c else '-') = c := by
      by_cases ha : isAsciiAlnum c
      · rw [if_pos ha]
      · rw [if_neg ha]
        rcases Bool.or_eq_true _ _ |>.mp (h c (List.mem_cons_self _ _)) with h' | h'
        · exact absurd h' ha
        · exact (beq_iff_eq.mp h').symm
    rw [hc]
    have := ih (fun a ha => h a (List.mem_cons_of_mem c ha))
    rw [replaceSpecial] at this
    rw [this]

theorem map_toLower_eq_self {l : List Char} (h : ∀ c ∈ l, Char.toLower c = c) :
    l.map Char.toLower = l := by
  induction l with
  | nil => rfl
  | cons c cs ih =>
    rw [List.map_cons, h c (List.mem_cons_self _ _),
      ih (fun a ha => h a (List.mem_cons_of_mem c ha))]

/-!  Sufficient conditions for the format-detector regex to match. -/

theorem matchSlug_of_props {s : List Char} (hne : s ≠ [])
    (hall : ∀ c ∈ s, canonChar c = true)
    (hh : ¬ s.head? = some '-') (hl : ¬ s.getLast? = some '-')
    (hnd : noDoubleHyphen s = true) : matchSlug s = true := by
  unfold matchSlug
  rw [Bool.and_eq_true, Bool.and_eq_true, Bool.and_eq_true, Bool.and_eq_true]
  refine ⟨⟨⟨⟨?_, ?_⟩, ?_⟩, ?_⟩, hnd⟩
  · exact bool_not_of_not (fun he => hne (List.isEmpty_iff.mp he))
  · exact List.all_eq_true.mpr hall
  · exact bool_not_of_not (fun he => hh (beq_iff_eq.mp he))
  · exact bool_not_of_not (fun he => hl (beq_iff_eq.mp he))

theorem matchSlugPdf_append {s : List Char} (hms : matchSlug s = true) :
    matchSlugPdf (s ++ ['.', 'p', 'd', 'f']) = true := by
  unfold matchSlugPdf
  have hlen : (s ++ ['.', 'p', 'd', 'f']).length = s.length + 4 := by simp
  rw [hlen]
  have h4 : s.length + 4 - 4 = s.length := by omega
  rw [h4, List.drop_left' rfl, List.take_left' rfl]
  rw [Bool.and_eq_true, Bool.and_eq_true]
  refine ⟨⟨?_, ?_⟩, hms⟩
  · exact decide_eq_true (by omega)
  · rfl

theorem matchDateCore_of {d1 d2 d3 d4 d5 d6 : Char} {rest : List Char}
    (h1 : d1.isDigit = true) (h2 : d2.isDigit = true) (h3 : d3.isDigit = true)
    (h4 : d4.isDigit = true) (h5 : d5.isDigit = true) (h6 : d6.isDigit = true)
    (hrest : matchSlugPdf rest = true) :
    matchDateCore (d1 :: d2 :: d3 :: d4 :: d5 :: d6 :: '-' :: rest) = true := by
  show (d1.isDigit && d2.isDigit && d3.isDigit && d4.isDigit && d5.isDigit && d6.isDigit &&
    ('-' == '-') && matchSlugPdf rest) = true
  rw [h1, h2, h3, h4, h5, h6, hrest]
  rfl

theorem list_six {α : Type} {l : List α} (h : l.length = 6) :
    ∃ a b c d e f, l = [a, b, c, d, e, f] := by
  cases l with
  | nil => simp at h
  | cons a t =>
    cases t with
    | nil => simp at h
    | cons b t =>
      cases t with
      | nil => simp at h
      | cons c t =>
        cases t with
        | nil => simp at h
        | cons d t =>
          cases t with
          | nil => simp at h
          | cons e t =>
            cases t with
            | nil => simp at h
            | cons f t =>
              cases t with
              | nil => exact ⟨a, b, c, d, e, f, rfl⟩
              | cons g t => simp at h

/-- The renamed filename `d-slug.pdf` is recognized by the format detector,
provided the slug is nonempty and `d` is six ASCII digits. -/
theorem is_already_formatted_new_filename {d f : String}
    (hd : d.toList.length = 6) (hdig : ∀ c ∈ d.toList, c.isDigit = true)
    (hslug : to_kebab_case f ≠ "") :
    is_already_formatted (new_filename d f) = true := by
  have hne : kebabList f.toList ≠ [] := by
    intro hs
    apply hslug
    show (⟨kebabList f.toList⟩ : String) = ""
    rw [hs]
  obtain ⟨hall, hh, hl, hnd⟩ := kebabList_props f.toList
  have hlist : (new_filename d f).toList =
      d.toList ++ ['-'] ++ kebabList f.toList ++ ['.', 'p', 'd', 'f'] := by
    show (new_filename d f).data = d.data ++ ['-'] ++ kebabList f.data ++ ['.', 'p', 'd', 'f']
    simp only [new_filename, String.data_append]
    rfl
  have hid : ((new_filename d f).toList).map Char.toLower = (new_filename d f).toList := by
    apply map_toLower_eq_self
    intro c hc
    rw [hlist] at hc
    simp only [List.append_assoc, List.mem_append, List.mem_cons, List.mem_singleton,
      List.not_mem_nil, or_false] at hc
    rcases hc with hc | rfl | hc | rfl | rfl | rfl | rfl
    · exact toLower_eq_self_of_digit (hdig c hc)
    · decide
    · exact toLower_eq_self_of_canon (hall c hc)
    · decide
    · decide
    · decide
    · decide
  rw [is_already_formatted, hid, hlist]
  obtain ⟨a, b, c, d4, e, f6, hd6⟩ := list_six hd
  have hdigs := hdig
  rw [hd6] at hdigs
  rw [matchDatePattern, Bool.or_eq_true]
  left
  have : d.toList ++ ['-'] ++ kebabList f.toList ++ ['.', 'p', 'd', 'f'] =
      a :: b :: c :: d4 :: e :: f6 :: '-' :: (kebabList f.toList ++ ['.', 'p', 'd', 'f']) := by
    rw [hd6]
    simp
  rw [this]
  apply matchDateCore_of
  · exact hdigs a (by simp)
  · exact hdigs b (by simp)
  · exact hdigs c (by simp)
  · exact hdigs d4 (by simp)
  · exact hdigs e (by simp)
  · exact hdigs f6 (by simp)
  · exact matchSlugPdf_append (matchSlug_of_props hne hall hh hl hnd)

/-!  Case equations for the per-file loop body. -/

theorem process_one_skip {env : Env} {avail : Bool} {name : String}
    (h : is_already_formatted name = true) :
    process_one env avail name = (.skipped, [.logSkip name]) := by
  unfold process_one
  rw [if_pos h]

theorem process_one_error_extract {env : Env} {avail : Bool} {name : String}
    (hfmt : is_already_formatted name = false)
    (herr : (extract_step env avail name).1 = .error ()) :
    process_one env avail name =
      (.errored, (extract_step env avail name).2 ++ [.logError name]) := by
  unfold process_one
  rw [if_neg (by rw [hfmt]; exact Bool.false_ne_true)]
  cases hes : extract_step env avail name with
  | mk r evs =>
    rw [hes] at herr
    simp only at herr
    subst herr
    rfl

theorem process_one_error_rename {env : Env} {avail : Bool} {name s : String}
    (hfmt : is_already_formatted name = false)
    (hok : (extract_step env avail name).1 = .ok s)
    (hrn : env.renameOk name (new_filename s name) = false) :
    process_one env avail name =
      (.errored, (extract_step env avail name).2 ++ [.logError name]) := by
  unfold process_one
  rw [if_neg (by rw [hfmt]; exact Bool.false_ne_true)]
  cases hes : extract_step env avail name with
  | mk r evs =>
    rw [hes] at hok
    simp only at hok
    subst hok
    show (match rename_pdf_with_date env name s with
      | .error _ => (Outcome.errored, evs ++ [Event.logError name])
      | .ok (newName, revs) => (Outcome.renamed newName, evs ++ revs)) =
        (Outcome.errored, evs ++ [Event.logError name])
    unfold rename_pdf_with_date
    rw [if_neg (by rw [hrn]; exact Bool.false_ne_true)]

theorem process_one_success {env : Env} {avail : Bool} {name s : String}
    (hfmt : is_already_formatted name = false)
    (hok : (extract_step env avail name).1 = .ok s)
    (hrn : env.renameOk name (new_filename s name) = true) :
    process_one env avail name =
      (.renamed (new_filename s name),
       (extract_step env avail name).2 ++
         [.fsRename name (new_filename s name), .logRenamed name (new_filename s name)]) := by
  unfold process_one
  rw [if_neg (by rw [hfmt]; exact Bool.false_ne_true)]
  cases hes : extract_step env avail name with
  | mk r evs =>
    rw [hes] at hok
    simp only at hok
    subst hok
    show (match rename_pdf_with_date env name s with
      | .error _ => (Outcome.errored, evs ++ [Event.logError name])
      | .ok (newName, revs) => (Outcome.renamed newName, evs ++ revs)) = _
    unfold rename_pdf_with_date
    rw [if_pos hrn]

/-!  Which backend events the loop body can emit. -/

theorem localExtract_events (env : Env) (name : String) :
    (localExtract env name).2 = [] ∨ (localExtract env name).2 = [.backendLocal name] := by
  unfold localExtract
  cases env.pdfText name with
  | error e => exact Or.inl rfl
  | ok text =>
    dsimp only
    cases env.ollamaGenerate text with
    | error e => exact Or.inr rfl
    | ok raw => exact Or.inr rfl

theorem remoteExtract_events (env : Env) (name : String) :
    (remoteExtract env name).2 = [] ∨ (remoteExtract env name).2 = [.backendRemote name] := by
  unfold remoteExtract
  cases env.pdfData name with
  | error e => exact Or.inl rfl
  | ok data =>
    dsimp only
    cases env.remoteResponse data with
    | error e => exact Or.inr rfl
    | ok s => exact Or.inr rfl

theorem extract_step_events (env : Env) (avail : Bool) (name : String) :
    (extract_step env avail name).2 = [] ∨
    (avail = true ∧ (extract_step env avail name).2 = [.backendLocal name]) ∨
    (avail = false ∧ (extract_step env avail name).2 = [.backendRemote name]) := by
  cases avail with
  | true =>
    rcases localExtract_events env name with h | h
    · exact Or.inl h
    · exact Or.inr (Or.inl ⟨rfl, h⟩)
  | false =>
    rcases remoteExtract_events env name with h | h
    · exact Or.inl h
    · exact Or.inr (Or.inr ⟨rfl, h⟩)

/-- Every event emitted for one file is one of: the skip log, the error
log, a backend call matching the selected variant, the rename mutation, or
the rename log — always tagged with that file's identity. -/
theorem mem_process_one_events {env : Env} {avail : Bool} {name : String} {ev : Event}
    (h : ev ∈ (process_one env avail name).2) :
    ev = .logSkip name ∨ ev = .logError name ∨
    (avail = true ∧ ev = .backendLocal name) ∨
    (avail = false ∧ ev = .backendRemote name) ∨
    (∃ nn, ev = .fsRename name nn) ∨ (∃ nn, ev = .logRenamed name nn) := by
  have hsub : ev ∈ (extract_step env avail name).2 →
      (avail = true ∧ ev = Event.backendLocal name) ∨
      (avail = false ∧ ev = Event.backendRemote name) := by
    intro hmem
    rcases extract_step_events env avail name with he | ⟨ha, he⟩ | ⟨ha, he⟩
    · rw [he] at hmem
      exact absurd hmem (List.not_mem_nil ev)
    · rw [he] at hmem
      exact Or.inl ⟨ha, List.mem_singleton.mp hmem⟩
    · rw [he] at hmem
      exact Or.inr ⟨ha, List.mem_singleton.mp hmem⟩
  have lift : (avail = true ∧ ev = Event.backendLocal name) ∨
      (avail = false ∧ ev = Event.backendRemote name) →
      ev = .logSkip name ∨ ev = .logError name ∨
      (avail = true ∧ ev = .backendLocal name) ∨
      (avail = false ∧ ev = .backendRemote name) ∨
      (∃ nn, ev = .fsRename name nn) ∨ (∃ nn, ev = .logRenamed name nn) := by
    intro hx
    rcases hx with hx | hx
    · exact Or.inr (Or.inr (Or.inl hx))
    · exact Or.inr (Or.inr (Or.inr (Or.inl hx)))
  by_cases hfmt : is_already_formatted name
  · rw [process_one_skip hfmt] at h
    exact Or.inl (List.mem_singleton.mp h)
  · rw [Bool.not_eq_true] at hfmt
    cases hok : (extract_step env avail name).1 with
    | error e =>
      rw [process_one_error_extract hfmt (by rw [hok])] at h
      rcases List.mem_append.mp h with h' | h'
      · exact lift (hsub h')
      · exact Or.inr (Or.inl (List.mem_singleton.mp h'))
    | ok s =>
      cases hrn : env.renameOk name (new_filename s name) with
      | false =>
        rw [process_one_error_rename hfmt hok hrn] at h
        rcases List.mem_append.mp h with h' | h'
        · exact lift (hsub h')
        · exact Or.inr (Or.inl (List.mem_singleton.mp h'))
      | true =>
        rw [process_one_success hfmt hok hrn] at h
        rcases List.mem_append.mp h with h' | h'
        · exact lift (hsub h')
        · rcases List.mem_cons.mp h' with h'' | h''
          · exact Or.inr (Or.inr (Or.inr (Or.inr (Or.inl ⟨_, h''⟩))))
          · exact Or.inr (Or.inr (Or.inr (Or.inr (Or.inr
              ⟨_, List.mem_singleton.mp h''⟩))))

/-!  Batch-level shape lemmas. -/

theorem process_pdf_directory_empty {env : Env} {entries : List String}
    (h : get_pdf_files entries = []) :
    process_pdf_directory env entries = ([.clientConstructed, .logNoFiles], []) := by
  unfold process_pdf_directory
  rw [h]
  rfl

theorem process_pdf_directory_nonempty {env : Env} {entries : List String}
    (h : get_pdf_files entries ≠ []) :
    process_pdf_directory env entries =
      ([.clientConstructed, .logFoundCount (get_pdf_files entries).length] ++
         availabilityEvents env ++
         (get_pdf_files entries).flatMap
           (fun f => (process_one env (ollama_is_available env) f).2),
       (get_pdf_files entries).map
         (fun f => (process_one env (ollama_is_available env) f).1)) := by
  unfold process_pdf_directory
  rw [if_neg (by rw [List.isEmpty_iff]; exact h)]

theorem probe_not_mem_flatMap (env : Env) (avail : Bool) (files : List String) :
    Event.probe ∉ files.flatMap (fun f => (process_one env avail f).2) := by
  intro h
  rcases List.mem_flatMap.mp h with ⟨f, _, hf⟩
  rcases mem_process_one_events hf with h' | h' | ⟨_, h'⟩ | ⟨_, h'⟩ | ⟨nn, h'⟩ | ⟨nn, h'⟩ <;>
    exact absurd h' (by simp)

theorem backendRemote_not_mem_flatMap {env : Env} {avail : Bool} (files : List String)
    (ha : avail = true) (g : String) :
    Event.backendRemote g ∉ files.flatMap (fun f => (process_one env avail f).2) := by
  intro h
  rcases List.mem_flatMap.mp h with ⟨f, _, hf⟩
  rcases mem_process_one_events hf with h' | h' | ⟨_, h'⟩ | ⟨hav, _⟩ | ⟨nn, h'⟩ | ⟨nn, h'⟩
  · exact absurd h' (by simp)
  · exact absurd h' (by simp)
  · exact absurd h' (by simp)
  · rw [ha] at hav
    exact absurd hav (by simp)
  · exact absurd h' (by simp)
  · exact absurd h' (by simp)

theorem backendLocal_not_mem_flatMap {env : Env} {avail : Bool} (files : List String)
    (ha : avail = false) (g : String) :
    Event.backendLocal g ∉ files.flatMap (fun f => (process_one env avail f).2) := by
  intro h
  rcases List.mem_flatMap.mp h with ⟨f, _, hf⟩
  rcases mem_process_one_events hf with h' | h' | ⟨hav, _⟩ | ⟨_, h'⟩ | ⟨nn, h'⟩ | ⟨nn, h'⟩
  · exact absurd h' (by simp)
  · exact absurd h' (by simp)
  · rw [ha] at hav
    exact absurd hav (by simp)
  · exact absurd h' (by simp)
  · exact absurd h' (by simp)
  · exact absurd h' (by simp)

theorem count_probe_trace (env : Env) {entries : List String}
    (h : get_pdf_files entries ≠ []) :
    (process_pdf_directory env entries).1.count Event.probe =
      (if truthy env.ollama_api_url && truthy env.ollama_model then 1 else 0) := by
  rw [process_pdf_directory_nonempty h]
  show ([Event.clientConstructed, Event.logFoundCount (get_pdf_files entries).length] ++
      availabilityEvents env ++ _).count Event.probe = _
  rw [List.count_append, List.count_append]
  have h1 : ([Event.clientConstructed,
      Event.logFoundCount (get_pdf_files entries).length]).count Event.probe = 0 := by
    apply List.count_eq_zero.mpr
    simp
  have h3 : ((get_pdf_files entries).flatMap
      (fun f => (process_one env (ollama_is_available env) f).2)).count Event.probe = 0 :=
    List.count_eq_zero.mpr (probe_not_mem_flatMap env (ollama_is_available env) _)
  rw [h1, h3]
  unfold availabilityEvents
  by_cases hc : truthy env.ollama_api_url && truthy env.ollama_model
  · rw [if_pos hc, if_pos hc]
    rfl
  · rw [if_neg hc, if_neg hc]
    rfl

theorem ollama_is_available_iff (env : Env) :
    ollama_is_available env = true ↔
      truthy env.ollama_api_url = true ∧ truthy env.ollama_model = true ∧
      env.probe = .ok 200 := by
  unfold ollama_is_available is_ollama_running
  rw [Bool.and_eq_true, Bool.and_eq_true]
  constructor
  · rintro ⟨⟨h1, h2⟩, h3⟩
    refine ⟨h1, h2, ?_⟩
    cases hp : env.probe with
    | error e => rw [hp] at h3; exact absurd h3 (by simp)
    | ok status =>
      rw [hp] at h3
      dsimp only at h3
      rw [beq_iff_eq.mp h3]
  · rintro ⟨h1, h2, h3⟩
    refine ⟨⟨h1, h2⟩, ?_⟩
    rw [h3]
    rfl

theorem remoteExtract_ok {env : Env} {name data raw : String}
    (hdata : env.pdfData name = .ok data) (hresp : env.remoteResponse data = .ok raw) :
    remoteExtract env name = (.ok raw, [.backendRemote name]) := by
  unfold remoteExtract
  rw [hdata]
  dsimp only
  rw [hresp]

theorem localExtract_ok {env : Env} {name text raw : String}
    (htext : env.pdfText name = .ok text) (hgen : env.ollamaGenerate text = .ok raw) :
    localExtract env name = (.ok (pyStrip raw), [.backendLocal name]) := by
  unfold localExtract
  rw [htext]
  dsimp only
  rw [hgen]

example : to_kebab_case "Invoice March.pdf" = "invoice-march" := by decide
example : is_already_formatted "250101-acme-corp-march.pdf" = true := by decide
example : is_already_formatted "invoice.pdf" = false := by decide
example : is_already_formatted "25010-abc.pdf" = false := by decide
example : is_already_formatted "250101-ABC.pdf" = true := by decide
example : to_kebab_case "#.pdf" = "" := by decide
example : is_already_formatted (new_filename "250101" "#.pdf") = false := by decide
example : to_kebab_case "-" = "" := by decide
example : to_kebab_case (to_kebab_case "-" ++ ".pdf") = "pdf" := by decide

/-!  ############  Claim theorems  ############ -/

/-- Claim C1, counterexample: the round-trip claim fails as stated for
`f = "#.pdf"` and `d = "250101"` — the canonicalized slug is empty, so the
rename produces `"250101-.pdf"`, which `is_already_formatted` rejects, and
a second batch run does not take the Skipped transition (here it renames
again, a filesystem mutation). -/
theorem c1_roundtrip_counterexample :
    ("250101" : String).toList.length = 6 ∧
    (∀ c ∈ ("250101" : String).toList, c.isDigit = true) ∧
    new_filename "250101" "#.pdf" = "250101-.pdf" ∧
    is_already_formatted (new_filename "250101" "#.pdf") = false ∧
    (process_one envCloud false (new_filename "250101" "#.pdf")).1 ≠ Outcome.skipped := by
  decide

/-- Claim C1 (amended): for every filename `f` whose canonical slug
`to_kebab_case f` is nonempty and every 6-ASCII-digit date string `d`, the
name produced by the rename step, `d ++ "-" ++ to_kebab_case f ++ ".pdf"`,
satisfies `is_already_formatted`, so on a second batch run the file takes
the Skipped transition — its loop iteration is exactly a skip log, with no
filesystem mutation. -/
theorem c1_roundtrip_skip (d f : String) (env : Env) (avail : Bool)
    (hd : d.toList.length = 6) (hdig : ∀ c ∈ d.toList, c.isDigit = true)
    (hslug : to_kebab_case f ≠ "") :
    is_already_formatted (new_filename d f) = true ∧
    process_one env avail (new_filename d f) =
      (.skipped, [.logSkip (new_filename d f)]) := by
  have h := is_already_formatted_new_filename hd hdig hslug
  exact ⟨h, process_one_skip h⟩

/-- Witness for C1 (amended) at `d = "250101"`, `f = "Invoice March.pdf"`. -/
theorem c1_roundtrip_skip_witness :
    ("250101" : String).toList.length = 6 ∧
    (∀ c ∈ ("250101" : String).toList, c.isDigit = true) ∧
    to_kebab_case "Invoice March.pdf" ≠ "" ∧
    (is_already_formatted (new_filename "250101" "Invoice March.pdf") = true ∧
     process_one envCloud false (new_filename "250101" "Invoice March.pdf") =
       (.skipped, [.logSkip (new_filename "250101" "Invoice March.pdf")])) :=
  ⟨by decide, by decide, by decide,
   c1_roundtrip_skip "250101" "Invoice March.pdf" envCloud false
     (by decide) (by decide) (by decide)⟩

/-- Claim C2: the four format-detector test vectors, including the
case-insensitivity policy — the implementation lowercases the whole
filename before matching, so `"250101-ABC.pdf"` is accepted. -/
theorem c2_detector_test_vectors :
    is_already_formatted "250101-acme-corp-march.pdf" = true ∧
    is_already_formatted "invoice.pdf" = false ∧
    is_already_formatted "25010-abc.pdf" = false ∧
    is_already_formatted "250101-ABC.pdf" = true := by
  decide

/-- Claim C3: for every input string `f`, `to_kebab_case f` contains only
characters from `[a-z0-9-]`, has no leading or trailing hyphen, and
contains no `--` substring. -/
theorem c3_slug_invariant (f : String) :
    (∀ c ∈ (to_kebab_case f).toList, canonChar c = true) ∧
    ¬ (to_kebab_case f).toList.head? = some '-' ∧
    ¬ (to_kebab_case f).toList.getLast? = some '-' ∧
    noDoubleHyphen (to_kebab_case f).toList = true :=
  kebabList_props f.toList

/-- Claim C4, counterexample: the idempotence claim fails as stated for the
nonempty all-hyphen-and-alphanumeric string `x = "-"`: its slug is empty,
so the second pass canonicalizes `".pdf"` — whose extension is *not*
stripped (`splitext` keeps a lone leading-dot name intact) — to `"pdf"`. -/
theorem c4_idempotence_counterexample :
    ("-" : String) ≠ "" ∧
    (∀ c ∈ ("-" : String).toList, canonChar c = true) ∧
    to_kebab_case (to_kebab_case "-" ++ ".pdf") ≠ to_kebab_case "-" := by
  decide

/-- Claim C4 (amended): for every non-empty string `x` of lowercase ASCII
alphanumerics and hyphens that contains at least one alphanumeric
character, `to_kebab_case (to_kebab_case x ++ ".pdf") = to_kebab_case x`. -/
theorem c4_canonicalizer_idempotent (x : String) (_hne : x ≠ "")
    (hx : ∀ c ∈ x.toList, canonChar c = true)
    (ha : ∃ c ∈ x.toList, isLowerSlugChar c = true) :
    to_kebab_case (to_kebab_case x ++ ".pdf") = to_kebab_case x := by
  have hnodot : '.' ∉ x.toList := fun hm => canonChar_ne_dot (hx _ hm) rfl
  have h1 : splitextBase x.toList = x.toList := splitextBase_of_no_dot hnodot
  have h2 : replaceSpecial x.toList = x.toList :=
    replaceSpecial_eq_self (fun c hc => alnumOrHyphen_of_canon (hx c hc))
  have hcanon_c : ∀ a ∈ dropTrailingHyphens (dropLeadingHyphens (collapseHyphens x.toList)),
      canonChar a = true :=
    fun a hac => hx a (mem_collapseHyphens
      (mem_of_mem_dropLeadingHyphens (mem_of_mem_dropTrailingHyphens hac)))
  have kx : kebabList x.toList =
      dropTrailingHyphens (dropLeadingHyphens (collapseHyphens x.toList)) := by
    unfold kebabList stripHyphens
    rw [h1, h2]
    exact map_toLower_eq_self (fun a haa => toLower_eq_self_of_canon (hcanon_c a haa))
  have hnd : noDoubleHyphen
      (dropTrailingHyphens (dropLeadingHyphens (collapseHyphens x.toList))) = true :=
    noDouble_dropTrailingHyphens (noDouble_dropLeadingHyphens (noDouble_collapseHyphens _))
  have hh : ¬ (dropTrailingHyphens (dropLeadingHyphens (collapseHyphens x.toList))).head? =
      some '-' :=
    head?_dropTrailingHyphens (head?_dropLeadingHyphens _)
  have hl : ¬ (dropTrailingHyphens (dropLeadingHyphens (collapseHyphens x.toList))).getLast? =
      some '-' :=
    getLast?_dropTrailingHyphens _
  have hcne : dropTrailingHyphens (dropLeadingHyphens (collapseHyphens x.toList)) ≠ [] := by
    obtain ⟨a, hax, hsl⟩ := ha
    have hane : a ≠ '-' := slugChar_ne_hyphen hsl
    have hmem : a ∈ dropTrailingHyphens (dropLeadingHyphens (collapseHyphens x.toList)) :=
      mem_dropTrailingHyphens_of_ne
        (mem_dropLeadingHyphens_of_ne (mem_collapseHyphens_of_ne hax hane) hane) hane
    intro h0
    rw [h0] at hmem
    exact List.not_mem_nil a hmem
  have hnodot_c : '.' ∉ dropTrailingHyphens (dropLeadingHyphens (collapseHyphens x.toList)) :=
    fun hm => canonChar_ne_dot (hcanon_c _ hm) rfl
  have hlist : (to_kebab_case x ++ ".pdf").toList =
      dropTrailingHyphens (dropLeadingHyphens (collapseHyphens x.toList)) ++
        ['.', 'p', 'd', 'f'] := by
    show (to_kebab_case x).data ++ (".pdf" : String).data = _
    rw [show (to_kebab_case x).data = kebabList x.toList from rfl, kx]
  have hsecond : kebabList (to_kebab_case x ++ ".pdf").toList =
      dropTrailingHyphens (dropLeadingHyphens (collapseHyphens x.toList)) := by
    rw [hlist]
    unfold kebabList stripHyphens
    rw [splitextBase_append_pdf hcne hnodot_c]
    rw [replaceSpecial_eq_self (fun c hc => alnumOrHyphen_of_canon (hcanon_c c hc))]
    rw [collapseHyphens_eq_self hnd]
    rw [dropLeadingHyphens_eq_self hh]
    rw [dropTrailingHyphens_eq_self hl]
    exact map_toLower_eq_self (fun a haa => toLower_eq_self_of_canon (hcanon_c a haa))
  show (⟨kebabList (to_kebab_case x ++ ".pdf").toList⟩ : String) = ⟨kebabList x.toList⟩
  rw [hsecond, kx]

/-- Witness for C4 (amended) at `x = "ab-12"`. -/
theorem c4_canonicalizer_idempotent_witness :
    ("ab-12" : String) ≠ "" ∧
    (∀ c ∈ ("ab-12" : String).toList, canonChar c = true) ∧
    (∃ c ∈ ("ab-12" : String).toList, isLowerSlugChar c = true) ∧
    to_kebab_case (to_kebab_case "ab-12" ++ ".pdf") = to_kebab_case "ab-12" :=
  ⟨by decide, by decide, by decide,
   c4_canonicalizer_idempotent "ab-12" (by decide) (by decide) (by decide)⟩

/-- Claim C5: on a non-empty run, the backend choice is computed once from
the environment (all outcomes are those of the single run-wide
`ollama_is_available` decision), the liveness probe fires at most once and
only when both env vars are configured, the local variant is selected iff
both are configured and the probe returned HTTP 200 (an erroring probe
silently counts as unavailable), and no file is sent to the non-selected
variant. -/
theorem c5_backend_selection (env : Env) (entries : List String)
    (h : get_pdf_files entries ≠ []) :
    BackendSelectionHolds env entries := by
  refine ⟨?_, count_probe_trace env h, ollama_is_available_iff env, ?_, ?_, ?_⟩
  · rw [process_pdf_directory_nonempty h]
  · intro e he
    cases havail : ollama_is_available env with
    | false => rfl
    | true =>
      obtain ⟨_, _, h200⟩ := (ollama_is_available_iff env).mp havail
      rw [h200] at he
      exact absurd he (by simp)
  · intro g havail
    rw [process_pdf_directory_nonempty h]
    intro hmem
    rcases List.mem_append.mp hmem with h' | h'
    · rcases List.mem_append.mp h' with h'' | h''
      · simp at h''
      · unfold availabilityEvents at h''
        by_cases hc : truthy env.ollama_api_url && truthy env.ollama_model
        · rw [if_pos hc] at h''
          simp at h''
        · rw [if_neg hc] at h''
          exact List.not_mem_nil _ h''
    · exact backendRemote_not_mem_flatMap _ havail g h'
  · intro g havail
    rw [process_pdf_directory_nonempty h]
    intro hmem
    rcases List.mem_append.mp hmem with h' | h'
    · rcases List.mem_append.mp h' with h'' | h''
      · simp at h''
      · unfold availabilityEvents at h''
        by_cases hc : truthy env.ollama_api_url && truthy env.ollama_model
        · rw [if_pos hc] at h''
          simp at h''
        · rw [if_neg hc] at h''
          exact List.not_mem_nil _ h''
    · exact backendLocal_not_mem_flatMap _ havail g h'

/-- Witness for C5 on a one-file run with both env vars set and a live
probe. -/
theorem c5_backend_selection_witness :
    get_pdf_files ["Invoice March.pdf"] ≠ [] ∧
    BackendSelectionHolds envBoth ["Invoice March.pdf"] :=
  ⟨by decide, c5_backend_selection envBoth ["Invoice March.pdf"] (by decide)⟩

/-- Claim C6: an exception in the extraction or rename step of one file is
caught at the per-file boundary: that file ends `errored` and is logged
with its identity, while the batch still produces one outcome per file,
each outcome a function of that file alone. -/
theorem c6_failure_isolation (env : Env) (entries : List String) (f : String)
    (hf : f ∈ get_pdf_files entries)
    (hfmt : is_already_formatted f = false)
    (herr : (extract_step env (ollama_is_available env) f).1 = .error () ∨
            ∃ s, (extract_step env (ollama_is_available env) f).1 = .ok s ∧
                 env.renameOk f (new_filename s f) = false) :
    IsolationHolds env entries f := by
  have hne : get_pdf_files entries ≠ [] := List.ne_nil_of_mem hf
  have hPO : process_one env (ollama_is_available env) f =
      (.errored, (extract_step env (ollama_is_available env) f).2 ++ [.logError f]) := by
    rcases herr with herr | ⟨s, hok, hrn⟩
    · exact process_one_error_extract hfmt herr
    · exact process_one_error_rename hfmt hok hrn
  refine ⟨by rw [hPO], ?_, ?_, ?_⟩
  · rw [hPO]
    exact List.mem_append_right _ (List.mem_singleton_self _)
  · rw [process_pdf_directory_nonempty hne]
  · rw [process_pdf_directory_nonempty hne]
    exact List.length_map _ _

/-- Witness for C6: reading `broken.pdf` raises while the sibling file is
still processed. -/
theorem c6_failure_isolation_witness :
    ("broken.pdf" : String) ∈ get_pdf_files ["broken.pdf", "Invoice March.pdf"] ∧
    is_already_formatted "broken.pdf" = false ∧
    ((extract_step envFail (ollama_is_available envFail) "broken.pdf").1 = .error () ∨
     ∃ s, (extract_step envFail (ollama_is_available envFail) "broken.pdf").1 = .ok s ∧
          envFail.renameOk "broken.pdf" (new_filename s "broken.pdf") = false) ∧
    IsolationHolds envFail ["broken.pdf", "Invoice March.pdf"] "broken.pdf" :=
  ⟨by decide, by decide, Or.inl rfl,
   c6_failure_isolation envFail ["broken.pdf", "Invoice March.pdf"] "broken.pdf"
     (by decide) (by decide) (Or.inl rfl)⟩

/-- Claim C7, counterexample: on an empty directory the batch does *not*
avoid constructing a backend client — `get_remote_ai_client()` runs before
the empty check, so the cloud client is constructed even when no PDF file
exists. -/
theorem c7_empty_directory_counterexample :
    get_pdf_files [] = [] ∧
    Event.clientConstructed ∈ (process_pdf_directory envCloud []).1 := by
  decide

/-- Claim C7 (amended): if no entry matches `*.pdf` or `*.PDF`, the batch
logs a single message and returns with zero renames and zero outcomes,
without invoking any backend — no liveness probe, no local or cloud call,
no rename; however the cloud client object is constructed (unconditionally,
before the check). -/
theorem c7_empty_directory (env : Env) (entries : List String)
    (h : get_pdf_files entries = []) :
    EmptyDirHolds env entries := by
  have he := @process_pdf_directory_empty env entries h
  refine ⟨he, ?_, ?_, ?_⟩
  · rw [he]
    simp
  · intro g
    constructor
    · rw [he]
      simp
    · rw [he]
      simp
  · intro a b
    rw [he]
    simp

/-- Witness for C7 (amended) on a directory holding only `readme.txt`. -/
theorem c7_empty_directory_witness :
    get_pdf_files ["readme.txt"] = [] ∧ EmptyDirHolds envCloud ["readme.txt"] :=
  ⟨by decide, c7_empty_directory envCloud ["readme.txt"] (by decide)⟩

/-- Claim C8: whatever string the active variant returns — the trimmed
local response `pyStrip raw2`, or the cloud response's first text segment
`raw`, with no `\d{6}` shape check on either — the rename step embeds it
verbatim: the new path is `s ++ "-" ++ to_kebab_case name ++ ".pdf"`. -/
theorem c8_verbatim_embedding (env : Env) (name data raw text raw2 : String)
    (hfmt : is_already_formatted name = false)
    (hdata : env.pdfData name = .ok data) (hresp : env.remoteResponse data = .ok raw)
    (htext : env.pdfText name = .ok text) (hgen : env.ollamaGenerate text = .ok raw2)
    (hrn1 : env.renameOk name (new_filename raw name) = true)
    (hrn2 : env.renameOk name (new_filename (pyStrip raw2) name) = true) :
    process_one env false name =
      (.renamed (new_filename raw name),
       [.backendRemote name, .fsRename name (new_filename raw name),
        .logRenamed name (new_filename raw name)]) ∧
    process_one env true name =
      (.renamed (new_filename (pyStrip raw2) name),
       [.backendLocal name, .fsRename name (new_filename (pyStrip raw2) name),
        .logRenamed name (new_filename (pyStrip raw2) name)]) := by
  have hre : remoteExtract env name = (.ok raw, [.backendRemote name]) :=
    remoteExtract_ok hdata hresp
  have hle : localExtract env name = (.ok (pyStrip raw2), [.backendLocal name]) :=
    localExtract_ok htext hgen
  constructor
  · rw [process_one_success hfmt
      (show (extract_step env false name).1 = .ok raw by
        rw [show extract_step env false name = remoteExtract env name from rfl, hre]) hrn1]
    rw [show extract_step env false name = remoteExtract env name from rfl, hre]
    rfl
  · rw [process_one_success hfmt
      (show (extract_step env true name).1 = .ok (pyStrip raw2) by
        rw [show extract_step env true name = localExtract env name from rfl, hle]) hrn2]
    rw [show extract_step env true name = localExtract env name from rfl, hle]
    rfl

/-- Witness for C8: both models answer with prose; the prose lands verbatim
in the new filename. -/
theorem c8_verbatim_embedding_witness :
    is_already_formatted "Invoice March.pdf" = false ∧
    envBoth.pdfData "Invoice March.pdf" = .ok "JVBERi0xLjQ" ∧
    envBoth.remoteResponse "JVBERi0xLjQ" = .ok "I could not find a date" ∧
    envBoth.pdfText "Invoice March.pdf" = .ok "some invoice text" ∧
    envBoth.ollamaGenerate "some invoice text" =
      .ok "  The invoice date is 15 March 2025.  " ∧
    (process_one envBoth false "Invoice March.pdf" =
      (.renamed (new_filename "I could not find a date" "Invoice March.pdf"),
       [.backendRemote "Invoice March.pdf",
        .fsRename "Invoice March.pdf"
          (new_filename "I could not find a date" "Invoice March.pdf"),
        .logRenamed "Invoice March.pdf"
          (new_filename "I could not find a date" "Invoice March.pdf")]) ∧
     process_one envBoth true "Invoice March.pdf" =
      (.renamed (new_filename (pyStrip "  The invoice date is 15 March 2025.  ")
          "Invoice March.pdf"),
       [.backendLocal "Invoice March.pdf",
        .fsRename "Invoice March.pdf"
          (new_filename (pyStrip "  The invoice date is 15 March 2025.  ")
            "Invoice March.pdf"),
        .logRenamed "Invoice March.pdf"
          (new_filename (pyStrip "  The invoice date is 15 March 2025.  ")
            "Invoice March.pdf")])) :=
  ⟨by decide, rfl, rfl, rfl, rfl,
   c8_verbatim_embedding envBoth "Invoice March.pdf" "JVBERi0xLjQ"
     "I could not find a date" "some invoice text"
     "  The invoice date is 15 March 2025.  "
     (by decide) rfl rfl rfl rfl rfl rfl⟩

/-- Claim C9: a file the detector classifies as canonical produces exactly
one skip-log event — no filesystem mutation, no backend call — and the
batch still yields one outcome per file (processing proceeds). -/
theorem c9_skip_frame (env : Env) (entries : List String) (name : String) (avail : Bool)
    (hmem : name ∈ get_pdf_files entries)
    (h : is_already_formatted name = true) :
    process_one env avail name = (.skipped, [.logSkip name]) ∧
    (∀ a b, Event.fsRename a b ∉ (process_one env avail name).2) ∧
    (∀ g, Event.backendLocal g ∉ (process_one env avail name).2 ∧
          Event.backendRemote g ∉ (process_one env avail name).2) ∧
    (process_pdf_directory env entries).2.length = (get_pdf_files entries).length := by
  have hp := @process_one_skip env avail name h
  refine ⟨hp, ?_, ?_, ?_⟩
  · intro a b
    rw [hp]
    simp
  · intro g
    constructor
    · rw [hp]
      simp
    · rw [hp]
      simp
  · rw [process_pdf_directory_nonempty (List.ne_nil_of_mem hmem)]
    exact List.length_map _ _

/-- Witness for C9 on a two-file directory whose first file is already
canonical. -/
theorem c9_skip_frame_witness :
    ("250101-already-done.pdf" : String) ∈
      get_pdf_files ["250101-already-done.pdf", "Invoice March.pdf"] ∧
    is_already_formatted "250101-already-done.pdf" = true ∧
    (process_one envCloud false "250101-already-done.pdf" =
      (.skipped, [.logSkip "250101-already-done.pdf"]) ∧
     (∀ a b, Event.fsRename a b ∉ (process_one envCloud false "250101-already-done.pdf").2) ∧
     (∀ g, Event.backendLocal g ∉ (process_one envCloud false "250101-already-done.pdf").2 ∧
           Event.backendRemote g ∉ (process_one envCloud false "250101-already-done.pdf").2) ∧
     (process_pdf_directory envCloud ["250101-already-done.pdf", "Invoice March.pdf"]).2.length =
       (get_pdf_files ["250101-already-done.pdf", "Invoice March.pdf"]).length) :=
  ⟨by decide, by decide,
   c9_skip_frame envCloud ["250101-already-done.pdf", "Invoice March.pdf"]
     "250101-already-done.pdf" false (by decide) (by decide)⟩

/-- Claim C10: the rename-target map is not injective — the distinct
source filenames `"a b.pdf"` and `"a_b.pdf"` canonicalize to the same
slug, so with equal extracted dates both map to the identical target path
`"250101-a-b.pdf"`; processing both in one batch makes the second rename
target the path already occupied by the first. -/
theorem c10_rename_target_not_injective :
    ("a b.pdf" : String) ≠ "a_b.pdf" ∧
    to_kebab_case "a b.pdf" = to_kebab_case "a_b.pdf" ∧
    new_filename "250101" "a b.pdf" = new_filename "250101" "a_b.pdf" ∧
    new_filename "250101" "a b.pdf" = "250101-a-b.pdf" := by
  decide

end RenamePdf
